import Mathlib

/-!
Verification of the response-cache core of llm-test-cache-go.

The development shallowly embeds the Go source (main.go): the cache store,
the fingerprinting of requests, the persistence layer, the LRU eviction
policy and the cache-aware fetcher.  Go strings are Lean strings with byte
length measured by utf8ByteSize (Go len); time.Time is a Nat tick count;
the Go map is an association list together with an explicit nil state,
since a decoded Go map can be nil and assignment to a nil map faults.
-/

/-- Embeds CacheEntry: a stored response payload and the last-access time.
Go time.Time is modelled as a Nat tick count, ordered as Before orders it. -/
structure CacheEntry where
  response : String
  timestamp : Nat
deriving DecidableEq, Repr

/-- The contents of the Responses map, as an association list. -/
abbrev Cache := List (String × CacheEntry)

/-- A Go map value: nil, or a table of bindings.  json.Unmarshal of a form
with the responses field absent or null leaves the map nil. -/
abbrev GoMap := Option Cache

/-- Byte size of the payload of an entry; Go len on a string counts bytes. -/
def entrySize (e : CacheEntry) : Nat := e.response.utf8ByteSize

/-- Total payload size of a store: the sum of entry sizes, as computed by
the loop at the top of evictIfNeeded. -/
def cacheSize (c : Cache) : Nat := (c.map (fun p => entrySize p.2)).sum

/-- Go map read m[k]: the value at the first binding of k, if any. -/
def mapLookup (k : String) : Cache → Option CacheEntry
  | [] => none
  | p :: rest => if p.1 = k then some p.2 else mapLookup k rest

/-- Replace every binding of k by v, keeping the rest. -/
def mapReplace (k : String) (v : CacheEntry) : Cache → Cache
  | [] => []
  | p :: rest =>
      if p.1 = k then (k, v) :: mapReplace k v rest else p :: mapReplace k v rest

/-- Go map assignment m[k] = v on a non-nil map: replace the binding if the
key is present, otherwise add a new binding. -/
def mapInsert (k : String) (v : CacheEntry) (c : Cache) : Cache :=
  if (mapLookup k c).isSome then mapReplace k v c else c ++ [(k, v)]

/-- Go map read on a possibly-nil map: reading a nil map finds nothing. -/
def goLookup (m : GoMap) (k : String) : Option CacheEntry :=
  match m with
  | none => none
  | some c => mapLookup k c

/-- Go map assignment on a possibly-nil map: assignment to a nil map is a
runtime fault, modelled as none. -/
def goInsert (m : GoMap) (k : String) (v : CacheEntry) : Option Cache :=
  match m with
  | none => none
  | some c => some (mapInsert k v c)

/-- Embeds openai.ChatCompletionMessage as used by this repository. -/
structure ChatMessage where
  role : String
  content : String
deriving DecidableEq, Repr

/-- Embeds openai.ChatCompletionRequest restricted to the fields this
repository sets: model, messages, seed and the maximum-output bound. -/
structure Request where
  model : String
  messages : List ChatMessage
  seed : Int
  maxTokens : Int
deriving DecidableEq, Repr

/-- Models json.Marshal on the request: encoding/json writes struct fields
in declaration order, so the encoding is a deterministic, canonical
function of the request fields. -/
def marshalRequest (r : Request) : String :=
  "\x7b\"model\":\"" ++ r.model ++ "\",\"messages\":[" ++
    String.intercalate ","
      (r.messages.map (fun m =>
        "\x7b\"role\":\"" ++ m.role ++ "\",\"content\":\"" ++ m.content ++ "\"\x7d")) ++
    "],\"seed\":" ++ toString r.seed ++
    ",\"max_tokens\":" ++ toString r.maxTokens ++ "\x7d"

/-- Embeds generateHash: json.Marshal of the request followed by a SHA-256
hex digest.  Marshalling the request struct cannot fail, so the result is
always ok; the digest step is modelled as the canonical serialization
itself, a pure deterministic function of the request, which is the only
property of the digest this development relies on. -/
def generateHash (req : Request) : Except String String :=
  Except.ok (marshalRequest req)

/-- The observable states of the backing cache file. -/
inductive FileState where
  | absent : FileState
  | corrupt : FileState
  | stored : GoMap → FileState
deriving DecidableEq, Repr

/-- Embeds loadCache: an absent file is a cold start and yields a fresh
empty map; unparsable bytes yield the unmarshal error; otherwise the
decoded map (which can be nil when the responses field was absent or
null in the persisted JSON). -/
def loadCache (fs : FileState) : Except String GoMap :=
  match fs with
  | FileState.absent => Except.ok (some [])
  | FileState.corrupt => Except.error "unmarshal"
  | FileState.stored m => Except.ok m

/-- Embeds saveCache: the map is serialized and becomes the stored file. -/
def saveCache (m : GoMap) : FileState := FileState.stored m

/-- Embeds clearCache: os.RemoveAll on the cache directory leaves the file
absent. -/
def clearCache (_ : FileState) : FileState := FileState.absent

/-- Timestamp order on bindings, as used by the sort in evictIfNeeded. -/
def tsLE (a b : String × CacheEntry) : Prop := a.2.timestamp ≤ b.2.timestamp

instance : DecidableRel tsLE := fun a b => Nat.decLe a.2.timestamp b.2.timestamp

instance : IsTotal (String × CacheEntry) tsLE := ⟨fun a b => Nat.le_total _ _⟩

instance : IsTrans (String × CacheEntry) tsLE := ⟨fun _ _ _ h h2 => Nat.le_trans h h2⟩

/-- The sort.Slice call of evictIfNeeded: entries ordered by timestamp
ascending.  The Go sort is unstable so ties come out in an arbitrary
order; the model fixes one deterministic such order. -/
def sortByTimestamp (c : Cache) : Cache := List.insertionSort tsLE c

/-- The eviction loop of evictIfNeeded: while size exceeds the limit and
entries remain, drop the oldest entry and subtract its payload size. -/
def evictFrom (limit : Int) : Int → Cache → Cache
  | _, [] => []
  | size, p :: rest =>
      if limit < size then evictFrom limit (size - (entrySize p.2 : Int)) rest
      else p :: rest

/-- Embeds evictIfNeeded: sum the payload sizes; if at or under the limit
return with no change, otherwise sort by timestamp ascending and run the
eviction loop.  Every path returns a nil error. -/
def evictIfNeeded (limit : Int) (c : Cache) : Except String Cache :=
  if (cacheSize c : Int) ≤ limit then Except.ok c
  else Except.ok (evictFrom limit (cacheSize c) (sortByTimestamp c))

/-- The store evictIfNeeded leaves behind (its error branch never fires). -/
def evictRun (limit : Int) (c : Cache) : Cache :=
  match evictIfNeeded limit c with
  | Except.ok r => r
  | Except.error _ => c

/-- Whether an Except value is the ok constructor. -/
def exceptIsOk : Except String Cache → Bool
  | Except.ok _ => true
  | Except.error _ => false

/-- Embeds CachingClient: the configuration the core consumes.  The remote
capability itself is passed to the operations as a function. -/
structure CachingClient where
  cacheEnabled : Bool
  cacheSizeLimit : Int
deriving DecidableEq, Repr

/-- Embeds fetchResponse: invoke the remote capability; a success carries
the payload tagged cached = false. -/
def fetchResponse (fetch : Request → Except String String) (req : Request) :
    Except String (String × Bool) :=
  match fetch req with
  | Except.error e => Except.error e
  | Except.ok r => Except.ok (r, false)

/-- Embeds getResponse.  The whole world the Go function touches is the
backing file, threaded explicitly; now is the value time.Now would read.
The outer Option models Go runtime faults: none is a panic (assignment to
a nil map), some carries the new file state and the returned triple, with
the error slot of the triple as the Except. -/
def getResponse (client : CachingClient) (fetch : Request → Except String String)
    (now : Nat) (req : Request) (fs : FileState) :
    Option (FileState × Except String (String × Bool)) :=
  match client.cacheEnabled with
  | false => some (fs, fetchResponse fetch req)
  | true =>
    match loadCache fs with
    | Except.error e => some (fs, Except.error e)
    | Except.ok m =>
      match generateHash req with
      | Except.error e => some (fs, Except.error e)
      | Except.ok h =>
        match goLookup m h with
        | some entry =>
          match goInsert m h { entry with timestamp := now } with
          | none => none
          | some m2 => some (saveCache (some m2), Except.ok (entry.response, true))
        | none =>
          match fetchResponse fetch req with
          | Except.error e => some (fs, Except.error e)
          | Except.ok (response, _) =>
            match goInsert m h { response := response, timestamp := now } with
            | none => none
            | some m2 =>
              match evictIfNeeded client.cacheSizeLimit m2 with
              | Except.error e => some (fs, Except.error e)
              | Except.ok m3 =>
                  some (saveCache (some m3), Except.ok (response, false))

/-- getResponse with the check of the eviction error deleted: the eviction
result is taken directly.  Stated by the unreachability claim to coincide
with getResponse everywhere. -/
def getResponseNoEvictCheck (client : CachingClient)
    (fetch : Request → Except String String)
    (now : Nat) (req : Request) (fs : FileState) :
    Option (FileState × Except String (String × Bool)) :=
  match client.cacheEnabled with
  | false => some (fs, fetchResponse fetch req)
  | true =>
    match loadCache fs with
    | Except.error e => some (fs, Except.error e)
    | Except.ok m =>
      match generateHash req with
      | Except.error e => some (fs, Except.error e)
      | Except.ok h =>
        match goLookup m h with
        | some entry =>
          match goInsert m h { entry with timestamp := now } with
          | none => none
          | some m2 => some (saveCache (some m2), Except.ok (entry.response, true))
        | none =>
          match fetchResponse fetch req with
          | Except.error e => some (fs, Except.error e)
          | Except.ok (response, _) =>
            match goInsert m h { response := response, timestamp := now } with
            | none => none
            | some m2 =>
                some (saveCache (some (evictRun client.cacheSizeLimit m2)),
                  Except.ok (response, false))

/-- One insertion step followed by the eviction policy, the shape of every
mutation the miss path of getResponse performs. -/
def insertThenEvict (limit : Int) (s : Cache) (p : String × CacheEntry) : Cache :=
  evictRun limit (mapInsert p.1 p.2 s)

lemma cacheSize_nil : cacheSize [] = 0 := rfl

lemma cacheSize_cons (p : String × CacheEntry) (l : Cache) :
    cacheSize (p :: l) = entrySize p.2 + cacheSize l := by
  simp [cacheSize]

lemma cacheSize_append (a b : Cache) :
    cacheSize (a ++ b) = cacheSize a + cacheSize b := by
  simp [cacheSize]

lemma cacheSize_perm {a b : Cache} (h : List.Perm a b) : cacheSize a = cacheSize b :=
  List.Perm.sum_eq (List.Perm.map _ h)

lemma cacheSize_intSum (c : Cache) :
    ((cacheSize c : Int)) = (c.map (fun p => (p.2.response.utf8ByteSize : Int))).sum := by
  induction c with
  | nil => rfl
  | cons p rest ih =>
      rw [cacheSize_cons, List.map_cons, List.sum_cons, ← ih]
      push_cast
      rfl

lemma sortByTimestamp_perm (c : Cache) : List.Perm (sortByTimestamp c) c :=
  List.perm_insertionSort tsLE c

lemma sortByTimestamp_sorted (c : Cache) : List.Sorted tsLE (sortByTimestamp c) :=
  List.sorted_insertionSort tsLE c

lemma cacheSize_sortByTimestamp (c : Cache) :
    cacheSize (sortByTimestamp c) = cacheSize c :=
  cacheSize_perm (sortByTimestamp_perm c)

/-- The eviction loop, started with the true total size of its list,
splits the list into a removed prefix and a kept suffix; the kept suffix
is at or under the limit or empty, and each removal happened only while
the remaining total still exceeded the limit. -/
lemma evictFrom_spec (limit : Int) :
    ∀ l : Cache,
      ∃ removed,
        l = removed ++ evictFrom limit (cacheSize l) l ∧
        ((cacheSize (evictFrom limit (cacheSize l) l) : Int) ≤ limit ∨
          evictFrom limit (cacheSize l) l = []) ∧
        (∀ pre suf, removed = pre ++ suf → suf ≠ [] →
          limit < (cacheSize (suf ++ evictFrom limit (cacheSize l) l) : Int)) := by
  intro l
  induction l with
  | nil =>
      refine ⟨[], rfl, Or.inr rfl, ?_⟩
      intro pre suf hps hne
      exact absurd (List.append_eq_nil.mp hps.symm).2 hne
  | cons p rest ih =>
      by_cases hlt : limit < (cacheSize (p :: rest) : Int)
      · have harg : (cacheSize (p :: rest) : Int) - (entrySize p.2 : Int) =
            (cacheSize rest : Int) := by
          rw [cacheSize_cons]; push_cast; ring
        have hstep : evictFrom limit (cacheSize (p :: rest)) (p :: rest) =
            evictFrom limit (cacheSize rest) rest := by
          show (if limit < ((cacheSize (p :: rest) : Nat) : Int) then
              evictFrom limit (((cacheSize (p :: rest) : Nat) : Int) - (entrySize p.2 : Int)) rest
            else p :: rest) = evictFrom limit (cacheSize rest) rest
          rw [if_pos hlt, harg]
        obtain ⟨removed, h1, h2, h3⟩ := ih
        refine ⟨p :: removed, ?_, ?_, ?_⟩
        · rw [hstep, List.cons_append, ← h1]
        · rw [hstep]; exact h2
        · intro pre suf hps hne
          rw [hstep]
          cases pre with
          | nil =>
              have hsuf : suf = p :: removed := by simpa using hps.symm
              have : suf ++ evictFrom limit (cacheSize rest) rest = p :: rest := by
                rw [hsuf, List.cons_append, ← h1]
              rw [this]
              exact hlt
          | cons q pre2 =>
              have hq : q = p ∧ removed = pre2 ++ suf := by
                constructor
                · exact (List.cons_eq_cons.mp hps.symm).1
                · exact ((List.cons_eq_cons.mp hps).2)
              exact h3 pre2 suf hq.2 hne
      · have hstep : evictFrom limit (cacheSize (p :: rest)) (p :: rest) = p :: rest := by
          show (if limit < ((cacheSize (p :: rest) : Nat) : Int) then
              evictFrom limit (((cacheSize (p :: rest) : Nat) : Int) - (entrySize p.2 : Int)) rest
            else p :: rest) = p :: rest
          rw [if_neg hlt]
        refine ⟨[], by rw [hstep, List.nil_append], Or.inl ?_, ?_⟩
        · rw [hstep]; exact le_of_not_lt hlt
        · intro pre suf hps hne
          exact absurd (List.append_eq_nil.mp hps.symm).2 hne

lemma evictIfNeeded_isOk (limit : Int) (c : Cache) :
    exceptIsOk (evictIfNeeded limit c) = true := by
  unfold evictIfNeeded
  split <;> rfl

lemma evictIfNeeded_eq_ok (limit : Int) (c : Cache) :
    evictIfNeeded limit c = Except.ok (evictRun limit c) := by
  unfold evictRun evictIfNeeded
  split <;> rfl

lemma evictRun_le (limit : Int) (h : 0 ≤ limit) (c : Cache) :
    (cacheSize (evictRun limit c) : Int) ≤ limit := by
  unfold evictRun evictIfNeeded
  by_cases hle : (cacheSize c : Int) ≤ limit
  · rw [if_pos hle]
    exact hle
  · rw [if_neg hle]
    show (cacheSize (evictFrom limit (cacheSize c) (sortByTimestamp c)) : Int) ≤ limit
    have hsz : (cacheSize c : Nat) = cacheSize (sortByTimestamp c) :=
      (cacheSize_sortByTimestamp c).symm
    rw [hsz]
    obtain ⟨removed, _, h2, _⟩ := evictFrom_spec limit (sortByTimestamp c)
    rcases h2 with h2 | h2
    · exact h2
    · rw [h2]
      exact h

lemma mapLookup_nil (k : String) : mapLookup k [] = none := rfl

lemma mapLookup_cons (k : String) (p : String × CacheEntry) (rest : Cache) :
    mapLookup k (p :: rest) = if p.1 = k then some p.2 else mapLookup k rest := rfl

lemma mapLookup_isSome_tail {k : String} {p : String × CacheEntry} {rest : Cache}
    (hne : p.1 ≠ k) (h : (mapLookup k (p :: rest)).isSome) :
    (mapLookup k rest).isSome := by
  unfold mapLookup at h
  rwa [if_neg hne] at h

lemma mapLookup_mapReplace_self (k : String) (v : CacheEntry) :
    ∀ c : Cache, (mapLookup k c).isSome → mapLookup k (mapReplace k v c) = some v := by
  intro c
  induction c with
  | nil => intro h; simp [mapLookup] at h
  | cons p rest ih =>
      intro h
      by_cases hpk : p.1 = k
      · unfold mapReplace
        rw [if_pos hpk]
        unfold mapLookup
        rw [if_pos rfl]
      · unfold mapReplace
        rw [if_neg hpk]
        unfold mapLookup
        rw [if_neg hpk]
        exact ih (mapLookup_isSome_tail hpk h)

lemma mapLookup_append_right {k : String} (v : CacheEntry) :
    ∀ c : Cache, mapLookup k c = none → mapLookup k (c ++ [(k, v)]) = some v := by
  intro c
  induction c with
  | nil =>
      intro _
      rw [List.nil_append, mapLookup_cons, if_pos rfl]
  | cons p rest ih =>
      intro h
      rw [mapLookup_cons] at h
      rw [List.cons_append, mapLookup_cons]
      by_cases hpk : p.1 = k
      · rw [if_pos hpk] at h
        exact absurd h (by simp)
      · rw [if_neg hpk] at h ⊢
        exact ih h

lemma mapLookup_mapInsert_self (k : String) (v : CacheEntry) (c : Cache) :
    mapLookup k (mapInsert k v c) = some v := by
  unfold mapInsert
  by_cases h : (mapLookup k c).isSome
  · rw [if_pos h]
    exact mapLookup_mapReplace_self k v c h
  · rw [if_neg h]
    exact mapLookup_append_right v c (Option.not_isSome_iff_eq_none.mp h)

lemma mapLookup_mapReplace_other {k k2 : String} (hne : k2 ≠ k) (v : CacheEntry) :
    ∀ c : Cache, mapLookup k2 (mapReplace k v c) = mapLookup k2 c := by
  intro c
  induction c with
  | nil => rfl
  | cons p rest ih =>
      by_cases hpk : p.1 = k
      · unfold mapReplace
        rw [if_pos hpk]
        unfold mapLookup
        rw [if_neg (fun hk => hne hk.symm), if_neg (fun hp => hne (hpk ▸ hp).symm)]
        exact ih
      · unfold mapReplace
        rw [if_neg hpk]
        unfold mapLookup
        by_cases hpk2 : p.1 = k2
        · rw [if_pos hpk2, if_pos hpk2]
        · rw [if_neg hpk2, if_neg hpk2]
          exact ih

lemma mapLookup_append_other {k k2 : String} (hne : k2 ≠ k) (v : CacheEntry) :
    ∀ c : Cache, mapLookup k2 (c ++ [(k, v)]) = mapLookup k2 c := by
  intro c
  induction c with
  | nil =>
      show mapLookup k2 [(k, v)] = mapLookup k2 []
      rw [mapLookup_cons, if_neg (fun hk => hne hk.symm), mapLookup_nil]
  | cons p rest ih =>
      rw [List.cons_append, mapLookup_cons, mapLookup_cons]
      by_cases hpk2 : p.1 = k2
      · rw [if_pos hpk2, if_pos hpk2]
      · rw [if_neg hpk2, if_neg hpk2]
        exact ih

lemma mapLookup_mapInsert_other {k k2 : String} (hne : k2 ≠ k) (v : CacheEntry)
    (c : Cache) : mapLookup k2 (mapInsert k v c) = mapLookup k2 c := by
  unfold mapInsert
  by_cases h : (mapLookup k c).isSome
  · rw [if_pos h]
    exact mapLookup_mapReplace_other hne v c
  · rw [if_neg h]
    exact mapLookup_append_other hne v c

lemma mapInsert_not_found (k : String) (v : CacheEntry) {c : Cache}
    (h : mapLookup k c = none) : mapInsert k v c = c ++ [(k, v)] := by
  unfold mapInsert
  rw [if_neg (by rw [h]; simp)]

lemma evictRun_noop {limit : Int} {c : Cache} (h : (cacheSize c : Int) ≤ limit) :
    evictRun limit c = c := by
  unfold evictRun evictIfNeeded
  rw [if_pos h]

lemma getResponse_hit (client : CachingClient) (fetch : Request → Except String String)
    (now : Nat) (req : Request) (fs : FileState) (c : Cache) (h : String) (e : CacheEntry)
    (hen : client.cacheEnabled = true)
    (hload : loadCache fs = Except.ok (some c))
    (hhash : generateHash req = Except.ok h)
    (hfound : mapLookup h c = some e) :
    getResponse client fetch now req fs =
      some (FileState.stored
          (some (mapInsert h { response := e.response, timestamp := now } c)),
        Except.ok (e.response, true)) := by
  unfold getResponse
  rw [hen]
  simp only [hload, hhash, goLookup, hfound, goInsert, saveCache]

lemma getResponse_miss_ok (client : CachingClient) (fetch : Request → Except String String)
    (now : Nat) (req : Request) (fs : FileState) (c : Cache) (h payload : String)
    (hen : client.cacheEnabled = true)
    (hload : loadCache fs = Except.ok (some c))
    (hhash : generateHash req = Except.ok h)
    (hmiss : mapLookup h c = none)
    (hfetch : fetch req = Except.ok payload) :
    getResponse client fetch now req fs =
      some (FileState.stored (some (evictRun client.cacheSizeLimit
          (mapInsert h { response := payload, timestamp := now } c))),
        Except.ok (payload, false)) := by
  unfold getResponse
  rw [hen]
  simp only [hload, hhash, goLookup, hmiss, fetchResponse, hfetch, goInsert,
    evictIfNeeded_eq_ok, saveCache]

lemma getResponse_miss_err (client : CachingClient) (fetch : Request → Except String String)
    (now : Nat) (req : Request) (fs : FileState) (m : GoMap) (h err : String)
    (hen : client.cacheEnabled = true)
    (hload : loadCache fs = Except.ok m)
    (hhash : generateHash req = Except.ok h)
    (hmiss : goLookup m h = none)
    (hfetch : fetch req = Except.error err) :
    getResponse client fetch now req fs = some (fs, Except.error err) := by
  unfold getResponse
  rw [hen]
  simp only [hload, hhash, hmiss, fetchResponse, hfetch]

lemma evictFrom_nil (limit size : Int) : evictFrom limit size [] = [] := rfl

lemma evictFrom_cons (limit size : Int) (p : String × CacheEntry) (rest : Cache) :
    evictFrom limit size (p :: rest) =
      if limit < size then evictFrom limit (size - (entrySize p.2 : Int)) rest
      else p :: rest := rfl

/-- A request like the ones the demonstration entry point builds. -/
def reqW : Request :=
  { model := "gpt-3.5-turbo-1106",
    messages := [{ role := "user", content := "Tell me a joke." }],
    seed := 12345, maxTokens := 100 }

/-- A caching-enabled configuration with a 100-byte limit. -/
def clientW : CachingClient := { cacheEnabled := true, cacheSizeLimit := 100 }

/-- A deterministic, always-successful remote capability. -/
def fetchW : Request → Except String String := fun _ => Except.ok "pong"

/-- An always-failing remote capability. -/
def fetchErrW : Request → Except String String := fun _ => Except.error "boom"

/-- C1 counterexample: a store holding exactly one entry, of payload size 2
with limit 1, is emptied by the eviction policy; the oversized entry is not
retained. -/
theorem evict_single_oversized_entry_removed_cex :
    ((1 : Int) < (entrySize { response := "ab", timestamp := 0 } : Int)) ∧
    evictIfNeeded 1 [("k", { response := "ab", timestamp := 0 })] = Except.ok [] := by
  refine ⟨by decide, ?_⟩
  rfl

/-- C1 (amended): for every store that contains exactly one entry whose
payload size alone exceeds the configured limit, running the eviction
policy removes that entry: the store is emptied. -/
theorem evict_single_oversized_entry_empties_store (limit : Int) (k : String)
    (e : CacheEntry) (h : limit < (entrySize e : Int)) :
    evictIfNeeded limit [(k, e)] = Except.ok [] := by
  have hsz : cacheSize [(k, e)] = entrySize e := by simp [cacheSize]
  unfold evictIfNeeded
  rw [if_neg (by rw [hsz]; exact not_le.mpr h)]
  show Except.ok (evictFrom limit (cacheSize [(k, e)]) [(k, e)]) = Except.ok []
  rw [evictFrom_cons, if_pos (by rw [hsz]; exact h), evictFrom_nil]

theorem evict_single_oversized_entry_empties_store_witness :
    ((3 : Int) < (entrySize { response := "wxyz", timestamp := 5 } : Int)) ∧
    evictIfNeeded 3 [("w", { response := "wxyz", timestamp := 5 })] = Except.ok [] :=
  ⟨by decide,
    evict_single_oversized_entry_empties_store 3 "w"
      { response := "wxyz", timestamp := 5 } (by decide)⟩

/-- C2: the eviction policy computes the total as the sum of payload byte
lengths over all entries; at or under the limit it makes no change to the
store, and otherwise it removes entries in ascending lastAccessed order,
oldest first, exactly until the total is at or under the limit or no
entries remain. -/
theorem evict_policy_is_lru_until_fits (limit : Int) (c : Cache) :
    ((c.map (fun p => (p.2.response.utf8ByteSize : Int))).sum ≤ limit →
      evictIfNeeded limit c = Except.ok c) ∧
    (limit < (c.map (fun p => (p.2.response.utf8ByteSize : Int))).sum →
      ∃ removed kept,
        evictIfNeeded limit c = Except.ok kept ∧
        List.Perm (removed ++ kept) c ∧
        List.Sorted tsLE removed ∧
        (∀ r ∈ removed, ∀ k ∈ kept, r.2.timestamp ≤ k.2.timestamp) ∧
        ((cacheSize kept : Int) ≤ limit ∨ kept = []) ∧
        (∀ pre suf, removed = pre ++ suf → suf ≠ [] →
          limit < (cacheSize (suf ++ kept) : Int))) := by
  constructor
  · intro hle
    rw [← cacheSize_intSum] at hle
    unfold evictIfNeeded
    rw [if_pos hle]
  · intro hgt
    rw [← cacheSize_intSum] at hgt
    have hnle : ¬ (cacheSize c : Int) ≤ limit := not_le.mpr hgt
    have hsz : (cacheSize c : Nat) = cacheSize (sortByTimestamp c) :=
      (cacheSize_sortByTimestamp c).symm
    obtain ⟨removed, h1, h2, h3⟩ := evictFrom_spec limit (sortByTimestamp c)
    have hs : List.Pairwise tsLE
        (removed ++ evictFrom limit (cacheSize (sortByTimestamp c)) (sortByTimestamp c)) := by
      have := sortByTimestamp_sorted c
      rw [h1] at this
      exact this
    refine ⟨removed, evictFrom limit (cacheSize (sortByTimestamp c)) (sortByTimestamp c),
      ?_, ?_, ?_, ?_, h2, h3⟩
    · unfold evictIfNeeded
      rw [if_neg hnle, hsz]
    · rw [← h1]
      exact sortByTimestamp_perm c
    · exact (List.pairwise_append.mp hs).1
    · intro r hr k hk
      exact (List.pairwise_append.mp hs).2.2 r hr k hk

/-- A two-entry store of total payload size 4. -/
def cW : Cache :=
  [("a", { response := "xx", timestamp := 0 }), ("b", { response := "yy", timestamp := 1 })]

theorem evict_policy_is_lru_until_fits_witness :
    (evictIfNeeded 10 cW = Except.ok cW) ∧
    (∃ removed kept,
      evictIfNeeded 1 cW = Except.ok kept ∧
      List.Perm (removed ++ kept) cW ∧
      List.Sorted tsLE removed ∧
      (∀ r ∈ removed, ∀ k ∈ kept, r.2.timestamp ≤ k.2.timestamp) ∧
      ((cacheSize kept : Int) ≤ 1 ∨ kept = []) ∧
      (∀ pre suf, removed = pre ++ suf → suf ≠ [] →
        1 < (cacheSize (suf ++ kept) : Int))) :=
  ⟨(evict_policy_is_lru_until_fits 10 cW).1 (by decide),
   (evict_policy_is_lru_until_fits 1 cW).2 (by decide)⟩

/-- C3: starting from the empty store, after any sequence of insertions
each followed by the eviction policy, the total payload size is at or
under the configured nonnegative limit, or exactly one entry remains whose
size alone exceeds it. -/
theorem size_bound_after_insertions (limit : Int) (h : 0 ≤ limit)
    (inserts : List (String × CacheEntry)) :
    (cacheSize (inserts.foldl (insertThenEvict limit) []) : Int) ≤ limit ∨
    ((inserts.foldl (insertThenEvict limit) []).length = 1 ∧
      limit < (cacheSize (inserts.foldl (insertThenEvict limit) []) : Int)) := by
  left
  have main : ∀ (l : List (String × CacheEntry)) (s : Cache),
      (cacheSize s : Int) ≤ limit →
      (cacheSize (l.foldl (insertThenEvict limit) s) : Int) ≤ limit := by
    intro l
    induction l with
    | nil => intro s hs; exact hs
    | cons p ps ih =>
        intro s hs
        rw [List.foldl_cons]
        exact ih _ (by unfold insertThenEvict; exact evictRun_le limit h _)
  exact main inserts [] (by rw [cacheSize_nil]; exact_mod_cast h)

theorem size_bound_after_insertions_witness :
    (cacheSize ([("a", { response := "xx", timestamp := 0 }),
        ("b", { response := "yyy", timestamp := 1 })].foldl (insertThenEvict 3) []) : Int) ≤ 3 ∨
    (([("a", { response := "xx", timestamp := 0 }),
        ("b", { response := "yyy", timestamp := 1 })].foldl (insertThenEvict 3) []).length = 1 ∧
      3 < (cacheSize ([("a", { response := "xx", timestamp := 0 }),
        ("b", { response := "yyy", timestamp := 1 })].foldl (insertThenEvict 3) []) : Int)) :=
  size_bound_after_insertions 3 (by decide)
    [("a", { response := "xx", timestamp := 0 }), ("b", { response := "yyy", timestamp := 1 })]

/-- C4: with caching enabled, a deterministic successful remote capability,
and a payload that still fits under the limit next to the loaded store,
issuing the same request three times yields cached = false on the first
call and cached = true on the second and third. -/
theorem same_request_three_calls_false_true_true
    (client : CachingClient) (fetch : Request → Except String String)
    (req : Request) (fs0 : FileState) (c0 : Cache) (h payload : String)
    (n1 n2 n3 : Nat)
    (hen : client.cacheEnabled = true)
    (hload : loadCache fs0 = Except.ok (some c0))
    (hhash : generateHash req = Except.ok h)
    (hmiss : mapLookup h c0 = none)
    (hfetch : fetch req = Except.ok payload)
    (hfits : (cacheSize c0 : Int) + (payload.utf8ByteSize : Int) ≤ client.cacheSizeLimit) :
    ∃ fs1 fs2 fs3,
      getResponse client fetch n1 req fs0 = some (fs1, Except.ok (payload, false)) ∧
      getResponse client fetch n2 req fs1 = some (fs2, Except.ok (payload, true)) ∧
      getResponse client fetch n3 req fs2 = some (fs3, Except.ok (payload, true)) := by
  have hc1 : mapInsert h { response := payload, timestamp := n1 } c0 =
      c0 ++ [(h, { response := payload, timestamp := n1 })] :=
    mapInsert_not_found h _ hmiss
  have hc1size : (cacheSize (mapInsert h { response := payload, timestamp := n1 } c0) : Int) ≤
      client.cacheSizeLimit := by
    rw [hc1, cacheSize_append]
    have : cacheSize [(h, ({ response := payload, timestamp := n1 } : CacheEntry))] =
        payload.utf8ByteSize := by
      simp [cacheSize, entrySize]
    rw [this]
    push_cast
    exact hfits
  have hrun : evictRun client.cacheSizeLimit
      (mapInsert h { response := payload, timestamp := n1 } c0) =
      mapInsert h { response := payload, timestamp := n1 } c0 :=
    evictRun_noop hc1size
  have call1 := getResponse_miss_ok client fetch n1 req fs0 c0 h payload
    hen hload hhash hmiss hfetch
  rw [hrun] at call1
  have hfound2 : mapLookup h (mapInsert h { response := payload, timestamp := n1 } c0) =
      some { response := payload, timestamp := n1 } :=
    mapLookup_mapInsert_self h _ c0
  have call2 := getResponse_hit client fetch n2 req
    (FileState.stored (some (mapInsert h { response := payload, timestamp := n1 } c0)))
    (mapInsert h { response := payload, timestamp := n1 } c0) h
    { response := payload, timestamp := n1 } hen rfl hhash hfound2
  have hfound3 : mapLookup h (mapInsert h { response := payload, timestamp := n2 }
        (mapInsert h { response := payload, timestamp := n1 } c0)) =
      some { response := payload, timestamp := n2 } :=
    mapLookup_mapInsert_self h _ _
  have call3 := getResponse_hit client fetch n3 req
    (FileState.stored (some (mapInsert h { response := payload, timestamp := n2 }
      (mapInsert h { response := payload, timestamp := n1 } c0))))
    (mapInsert h { response := payload, timestamp := n2 }
      (mapInsert h { response := payload, timestamp := n1 } c0)) h
    { response := payload, timestamp := n2 } hen rfl hhash hfound3
  exact ⟨_, _, _, call1, call2, call3⟩

theorem same_request_three_calls_false_true_true_witness :
    (clientW.cacheEnabled = true) ∧
    (loadCache FileState.absent = Except.ok (some [])) ∧
    (generateHash reqW = Except.ok (marshalRequest reqW)) ∧
    (mapLookup (marshalRequest reqW) [] = none) ∧
    (fetchW reqW = Except.ok "pong") ∧
    ((cacheSize ([] : Cache) : Int) + (("pong" : String).utf8ByteSize : Int) ≤
      clientW.cacheSizeLimit) ∧
    (∃ fs1 fs2 fs3,
      getResponse clientW fetchW 1 reqW FileState.absent =
        some (fs1, Except.ok ("pong", false)) ∧
      getResponse clientW fetchW 2 reqW fs1 = some (fs2, Except.ok ("pong", true)) ∧
      getResponse clientW fetchW 3 reqW fs2 = some (fs3, Except.ok ("pong", true))) :=
  ⟨rfl, rfl, rfl, rfl, rfl, by decide,
    same_request_three_calls_false_true_true clientW fetchW reqW FileState.absent []
      (marshalRequest reqW) "pong" 1 2 3 rfl rfl rfl rfl rfl (by decide)⟩

/-- C6: with caching enabled, a request whose fingerprint is present in the
loaded store gets the lastAccessed timestamp of exactly that entry updated
to the current time, the store persisted, and the stored payload returned
with cached = true and no error. -/
theorem hit_refreshes_persists_returns_cached
    (client : CachingClient) (fetch : Request → Except String String)
    (now : Nat) (req : Request) (fs : FileState) (m : GoMap) (h : String) (e : CacheEntry)
    (hen : client.cacheEnabled = true)
    (hload : loadCache fs = Except.ok m)
    (hhash : generateHash req = Except.ok h)
    (hfound : goLookup m h = some e) :
    ∃ c2, getResponse client fetch now req fs =
        some (FileState.stored (some c2), Except.ok (e.response, true)) ∧
      mapLookup h c2 = some { response := e.response, timestamp := now } ∧
      (∀ k, k ≠ h → mapLookup k c2 = goLookup m k) := by
  cases m with
  | none => exact absurd hfound (by simp [goLookup])
  | some c =>
      have hfound2 : mapLookup h c = some e := hfound
      refine ⟨mapInsert h { response := e.response, timestamp := now } c, ?_, ?_, ?_⟩
      · exact getResponse_hit client fetch now req fs c h e hen hload hhash hfound2
      · exact mapLookup_mapInsert_self h _ c
      · intro k hk
        exact mapLookup_mapInsert_other hk _ c

theorem hit_refreshes_persists_returns_cached_witness :
    (clientW.cacheEnabled = true) ∧
    (loadCache (FileState.stored
        (some [(marshalRequest reqW, { response := "old", timestamp := 7 })])) =
      Except.ok (some [(marshalRequest reqW, { response := "old", timestamp := 7 })])) ∧
    (generateHash reqW = Except.ok (marshalRequest reqW)) ∧
    (goLookup (some [(marshalRequest reqW, { response := "old", timestamp := 7 })])
        (marshalRequest reqW) = some { response := "old", timestamp := 7 }) ∧
    (∃ c2, getResponse clientW fetchW 9 reqW
        (FileState.stored
          (some [(marshalRequest reqW, { response := "old", timestamp := 7 })])) =
        some (FileState.stored (some c2), Except.ok ("old", true)) ∧
      mapLookup (marshalRequest reqW) c2 = some { response := "old", timestamp := 9 } ∧
      (∀ k, k ≠ marshalRequest reqW →
        mapLookup k c2 =
          goLookup (some [(marshalRequest reqW, { response := "old", timestamp := 7 })]) k)) :=
  ⟨rfl, rfl, rfl, by simp [goLookup, mapLookup],
    hit_refreshes_persists_returns_cached clientW fetchW 9 reqW
      (FileState.stored (some [(marshalRequest reqW, { response := "old", timestamp := 7 })]))
      (some [(marshalRequest reqW, { response := "old", timestamp := 7 })])
      (marshalRequest reqW) { response := "old", timestamp := 7 }
      rfl rfl rfl (by simp [goLookup, mapLookup])⟩

/-- C7: with caching enabled and the fingerprint absent from the loaded
store, a failing remote call makes getResponse return that error with the
backing file left exactly as it was before the call: no save happens, so
the persisted entry count and contents are unchanged. -/
theorem miss_remote_failure_leaves_store_unchanged
    (client : CachingClient) (fetch : Request → Except String String)
    (now : Nat) (req : Request) (fs : FileState) (m : GoMap) (h err : String)
    (hen : client.cacheEnabled = true)
    (hload : loadCache fs = Except.ok m)
    (hhash : generateHash req = Except.ok h)
    (hmiss : goLookup m h = none)
    (hfetch : fetch req = Except.error err) :
    getResponse client fetch now req fs = some (fs, Except.error err) :=
  getResponse_miss_err client fetch now req fs m h err hen hload hhash hmiss hfetch

theorem miss_remote_failure_leaves_store_unchanged_witness :
    (clientW.cacheEnabled = true) ∧
    (loadCache (FileState.stored (some cW)) = Except.ok (some cW)) ∧
    (generateHash reqW = Except.ok (marshalRequest reqW)) ∧
    (goLookup (some cW) (marshalRequest reqW) = none) ∧
    (fetchErrW reqW = Except.error "boom") ∧
    getResponse clientW fetchErrW 4 reqW (FileState.stored (some cW)) =
      some (FileState.stored (some cW), Except.error "boom") :=
  ⟨rfl, rfl, rfl, by decide, rfl,
    miss_remote_failure_leaves_store_unchanged clientW fetchErrW 4 reqW
      (FileState.stored (some cW)) (some cW) (marshalRequest reqW) "boom"
      rfl rfl rfl (by decide) rfl⟩

/-- C8: loading when no persisted form exists yields the empty store with
no error, and clearing the persisted store followed by a load also yields
the empty store. -/
theorem cold_start_and_clear_then_load_empty :
    loadCache FileState.absent = Except.ok (some []) ∧
    ∀ fs, loadCache (clearCache fs) = Except.ok (some []) :=
  ⟨rfl, fun _ => rfl⟩

/-- C9: a persisted form that parses successfully but decodes the
responses field to a nil map (the JSON had it absent or null) makes the
cache-miss insertion fault: assignment to a nil Go map is a runtime panic,
modelled as none. -/
theorem parsed_nil_map_miss_insertion_faults :
    getResponse clientW fetchW 1 reqW (FileState.stored none) = none := rfl

/-- C10: the eviction policy returns a nil error for every store and
limit, and getResponse coincides everywhere with the variant whose
eviction-failure branch is removed: that branch is unreachable. -/
theorem evict_never_errors_and_branch_unreachable :
    (∀ limit c, exceptIsOk (evictIfNeeded limit c) = true) ∧
    (∀ client fetch now req fs,
      getResponse client fetch now req fs =
        getResponseNoEvictCheck client fetch now req fs) := by
  refine ⟨evictIfNeeded_isOk, ?_⟩
  intro client fetch now req fs
  unfold getResponse getResponseNoEvictCheck
  cases client.cacheEnabled
  · rfl
  · dsimp only
    cases loadCache fs with
    | error e => rfl
    | ok m =>
      dsimp only
      cases generateHash req with
      | error e => rfl
      | ok h =>
        dsimp only
        cases goLookup m h with
        | some entry => rfl
        | none =>
          dsimp only
          cases fetchResponse fetch req with
          | error e => rfl
          | ok pr =>
            dsimp only
            obtain ⟨response, flag⟩ := pr
            dsimp only
            cases goInsert m h { response := response, timestamp := now } with
            | none => rfl
            | some m2 =>
                dsimp only
                rw [evictIfNeeded_eq_ok]

